import Mathlib

/-!
Shallow embedding of the shell-command classifier in
`src/src/shell/is_shell.rs` (the `ShellCommandDetector` type and its
methods).  Rust strings are modelled as `List Char`; `str::to_lowercase`
is modelled per-character by `Char.toLower` (faithful on ASCII, which is
all the classifier's fixed word lists use); the `regex` crate's `\w` and
`\s` classes are modelled on ASCII by `Char.isAlphanum`/underscore and
`Char.isWhitespace`.  The mutable `HashSet<String>` inventory is modelled
as a `List (List Char)` with set-insert, and the two external effects
(the `which` subprocess probe and, at load time, the file system and the
alias subprocess) are modelled as explicit inputs, as the spec's design
notes direct.  Stateful methods return, besides their result, the new
detector state and the list of names passed to the `which` subprocess
during the call, so that caching claims can be stated.
-/

namespace Infrarust

/-- The characters of a string literal, the form all model text takes. -/
def s2c (s : String) : List Char := s.data

/-- Model of Rust `str::trim`: drop whitespace from both ends. -/
def trim (l : List Char) : List Char :=
  ((l.dropWhile Char.isWhitespace).reverse.dropWhile Char.isWhitespace).reverse

/-- One-pass accumulator for `splitWs`; `cur` is the current word built
in reverse. -/
def splitWsAux : List Char → List Char → List (List Char)
  | [], cur => if cur.isEmpty then [] else [cur.reverse]
  | c :: cs, cur =>
    if c.isWhitespace then
      if cur.isEmpty then splitWsAux cs []
      else cur.reverse :: splitWsAux cs []
    else splitWsAux cs (c :: cur)

/-- Model of Rust `str::split_whitespace`: maximal nonempty runs of
non-whitespace characters. -/
def splitWs (l : List Char) : List (List Char) :=
  splitWsAux l []

/-- Model of Rust `str::ends_with(c)` for a single-char pattern. -/
def ends_with_char (l : List Char) (c : Char) : Bool :=
  l.getLast? == some c

/-- The regex crate's `\w` class, on ASCII: letters, digits, underscore. -/
def isWordChar (c : Char) : Bool := c.isAlphanum || c == '_'

/-- One element of a natural-language indicator pattern: a group of
literal word alternatives (`(than|of)`, `compared?` = compare/compared),
or the `\w+` wildcard. -/
inductive PatElem where
  | lit (alts : List (List Char)) : PatElem
  | wordChars : PatElem

/-- Drop `p` from the front of `l` if it is literally there. -/
def dropPre : List Char → List Char → Option (List Char)
  | [], l => some l
  | _ :: _, [] => none
  | p :: ps, c :: cs => if p == c then dropPre ps cs else none

/-- `\b` to the right: end of text, or a non-word character next. -/
def wordEnd (l : List Char) : Bool :=
  match l with
  | [] => true
  | c :: _ => !isWordChar c

/-- `\s+`: require one whitespace character and consume the whole run. -/
def skipSpaces1 (l : List Char) : Option (List Char) :=
  match l with
  | [] => none
  | c :: cs => if c.isWhitespace then some (cs.dropWhile Char.isWhitespace) else none

/-- Match a pattern `\b e1 \s+ e2 \s+ ... \s+ en \b` at the head of `l`
(the leading `\b` is checked by the caller).  A literal group tries each
alternative; `\w+` consumes the maximal nonempty run of word characters
(maximal munch is complete here because every following piece starts
with whitespace). -/
def matchSeq : List PatElem → List Char → Bool
  | [], l => wordEnd l
  | PatElem.lit alts :: rest, l =>
    alts.any fun a =>
      match dropPre a l with
      | none => false
      | some rem =>
        if rest.isEmpty then wordEnd rem
        else
          match skipSpaces1 rem with
          | none => false
          | some rem2 => matchSeq rest rem2
  | PatElem.wordChars :: rest, l =>
    match l with
    | [] => false
    | c :: cs =>
      if isWordChar c then
        let rem := cs.dropWhile isWordChar
        if rest.isEmpty then wordEnd rem
        else
          match skipSpaces1 rem with
          | none => false
          | some rem2 => matchSeq rest rem2
      else false

/-- Search for a match at any position whose left context is a word
boundary (`bnd` records whether the previous character, if any, was a
non-word character; every pattern starts with a word character, so `\b`
holds exactly at such positions). -/
def searchAux (es : List PatElem) : List Char → Bool → Bool
  | [], _ => false
  | c :: cs, bnd => (bnd && matchSeq es (c :: cs)) || searchAux es cs (!isWordChar c)

/-- `Regex::is_match` for the bounded word-sequence patterns used by the
classifier. -/
def reMatches (es : List PatElem) (l : List Char) : Bool :=
  searchAux es l true

/-- Shorthand for a literal group with a single alternative. -/
def w1 (s : String) : PatElem := PatElem.lit [s2c s]

/-- Shorthand for a literal group of alternatives. -/
def wAlts (ss : List String) : PatElem := PatElem.lit (ss.map s2c)

/-- The `natural_indicators` regex table of
`check_natural_language_patterns`, in source order.  Each regex is of
the form `\b g1 \s+ g2 ... \b` with `gi` a group of literal words or
`\w+`; `compared?` and `helps?`/`assists?` are spelled out as the two
words they accept, and the one top-level alternation
`\bvs\b|\bversus\b` is the same as the bounded group `\b(vs|versus)\b`. -/
def natural_indicators : List (List PatElem) := [
  [wAlts ["better", "worse", "best", "worst"], wAlts ["than", "of"]],
  [wAlts ["compare", "compared"], w1 "to"],
  [wAlts ["vs", "versus"]],
  [w1 "my", wAlts ["favorite", "preferred", "personal"]],
  [w1 "is", w1 "my", wAlts ["favorite", "preferred"]],
  [w1 "can", wAlts ["locate", "find", "search", "help", "assist", "manage",
    "handle", "create", "remove", "display", "show"]],
  [wAlts ["help", "helps", "assist", "assists"],
    wAlts ["navigate", "with", "you", "me", "us"]],
  [w1 "is", wAlts ["the", "this", "that", "a", "an"]],
  [w1 "are", wAlts ["the", "these", "those"]],
  [w1 "which", wAlts ["one", "is", "are"]],
  [wAlts ["can", "could", "should", "would"], w1 "you"],
  [w1 "please", wAlts ["help", "tell", "show"]],
  [w1 "tell", w1 "me", w1 "about"],
  [w1 "help", w1 "me", wAlts ["with", "understand"]],
  [w1 "the", wAlts ["latest", "newest", "oldest", "current", "main",
    "primary", "best"]],
  [w1 "a", wAlts ["new", "good", "bad", "better", "simple", "useful"]],
  [w1 "an", wAlts ["old", "new", "existing"]],
  [w1 "how", wAlts ["to", "do", "does"]],
  [w1 "what", wAlts ["is", "are", "does"]],
  [w1 "why", wAlts ["is", "are", "does"]],
  [w1 "this", wAlts ["command", "file", "directory", "is"]],
  [w1 "that", wAlts ["command", "file", "directory"]],
  [w1 "all", PatElem.wordChars, wAlts ["files", "directories", "commands", "in"]]]

/-- The fixed stop-word set of the density heuristic. -/
def common_words : List (List Char) :=
  ["the", "is", "are", "and", "or", "but", "for", "to", "of", "in", "on",
    "at", "by", "with", "all"].map s2c

/-- Number of words of `ws` that lie in `common_words`. -/
def commonCount (ws : List (List Char)) : Nat :=
  (ws.filter (fun w => common_words.contains w)).length

/-- `ShellCommandDetector::check_natural_language_patterns`.  Returns
`false` when the text looks like natural language.  The f32 comparison
`common_count / words.len() > 0.4` is modelled exactly over the
rationals as `5 * common_count > 2 * words.len()`. -/
def check_natural_language_patterns (text : List Char) : Bool :=
  if (trim text).isEmpty then true
  else if natural_indicators.any
      (fun p => reMatches p (text.map Char.toLower)) then false
  else if (splitWs (text.map Char.toLower)).length > 2 then
    if 5 * commonCount (splitWs (text.map Char.toLower)) >
        2 * (splitWs (text.map Char.toLower)).length then false
    else true
  else true

/-- The `question_words` table of `is_obvious_natural_language`. -/
def question_words : List (List Char) :=
  ["what ", "how ", "why ", "when ", "where ", "who "].map s2c

/-- The `starters` table of `is_obvious_natural_language`. -/
def starters : List (List Char) :=
  ["tell me", "can you", "please ", "i want", "i need", "could you",
    "would you", "help me"].map s2c

/-- `ShellCommandDetector::is_obvious_natural_language`. -/
def is_obvious_natural_language (text : List Char) : Bool :=
  let text_lower := text.map Char.toLower
  if ends_with_char text_lower '?' then true
  else if question_words.any (fun w => w.isPrefixOf text_lower) then true
  else starters.any (fun s => s.isPrefixOf text_lower)

/-- The character loop of `extract_unquoted_parts`: keep characters
outside quoted spans, tracking the current quote character. -/
def euqAux : List Char → Option Char → List Char
  | [], _ => []
  | c :: cs, none =>
    if c == '\'' || c == '"' then euqAux cs (some c)
    else c :: euqAux cs none
  | c :: cs, some q => if c == q then euqAux cs none else euqAux cs (some q)

/-- `ShellCommandDetector::extract_unquoted_parts`: drop quoted spans,
trim, then drop the leading command word (everything up to the first
space character; if there is no space the result is empty). -/
def extract_unquoted_parts (text : List Char) : List Char :=
  let unquoted_text := trim (euqAux text none)
  match unquoted_text.findIdx? (fun c => c == ' ') with
  | some i => trim (unquoted_text.drop i)
  | none => []

/-- `ShellCommandDetector::args_follow_shell_patterns_lenient`. -/
def args_follow_shell_patterns_lenient (original_input : List Char)
    (parsed_args : List (List Char)) : Bool :=
  if parsed_args.isEmpty then true
  else
    let has_quotes := original_input.contains '\'' || original_input.contains '"'
    if has_quotes then
      let unquoted_parts := extract_unquoted_parts original_input
      if (trim unquoted_parts).isEmpty then true
      else check_natural_language_patterns unquoted_parts
    else
      check_natural_language_patterns (List.intercalate (s2c " ") parsed_args)

/-- Modelled from the spec: `shell_words::split`, the external tokenizer
crate (not part of this repository's sources).  Per the spec,
"matching single/double quotes define token boundaries and are stripped
from the token content; unbalanced quotes are a tokenization failure",
and whitespace separates tokens.  `cur` is the current token built in
reverse, `inTok` records whether a current token exists (so that a
quoted empty string still yields a token), `q` the open quote. -/
def splitAux : List Char → Option Char → List Char → Bool →
    List (List Char) → Option (List (List Char))
  | [], some _, _, _, _ => none
  | [], none, cur, inTok, acc =>
    some (if inTok then acc ++ [cur.reverse] else acc)
  | c :: cs, some q, cur, _, acc =>
    if c == q then splitAux cs none cur true acc
    else splitAux cs (some q) (c :: cur) true acc
  | c :: cs, none, cur, inTok, acc =>
    if c == '\'' || c == '"' then splitAux cs (some c) cur true acc
    else if c.isWhitespace then
      if inTok then splitAux cs none [] false (acc ++ [cur.reverse])
      else splitAux cs none [] false acc
    else splitAux cs none (c :: cur) true acc

/-- Modelled from the spec: `shell_words::split` entry point. -/
def split (l : List Char) : Option (List (List Char)) :=
  splitAux l none [] false []

/-- The `ShellCommandDetector` state: its `available_commands` inventory
(`HashSet<String>` in the source, modelled as a list with set-insert). -/
structure ShellCommandDetector where
  available_commands : List (List Char)

/-- `HashSet::insert`: add the name if it is not already present. -/
def insertCmd (d : ShellCommandDetector) (n : List Char) : ShellCommandDetector :=
  if d.available_commands.contains n then d else ⟨n :: d.available_commands⟩

/-- `ShellCommandDetector::command_exists_runtime`.  The `which`
subprocess is modelled by the oracle `which : List Char → Bool` (`true`
= the invocation returned success).  Besides the verdict the model
returns the new state and the names probed via the subprocess during
the call. -/
def command_exists_runtime (d : ShellCommandDetector) (which : List Char → Bool)
    (command : List Char) : Bool × ShellCommandDetector × List (List Char) :=
  if which command then (true, insertCmd d command, [command])
  else (false, d, [command])

/-- The fixed builtin table of `is_valid_command`. -/
def builtins : List (List Char) :=
  ["ls", "cd", "pwd", "echo", "export", "source", "alias", "unalias",
    "history", "jobs", "fg", "bg", "kill", "wait", "exec", "eval", "test",
    "[", "printf", "read", "set", "unset", "shift", "exit", "return",
    "break", "continue", "which", "type", "command", "builtin", "declare",
    "local", "readonly", "true", "false", "git", "mkdir", "rm", "cp", "mv",
    "cat", "grep", "find", "chmod", "sudo", "apt", "yum", "dnf", "pacman",
    "brew", "docker", "ssh", "clear"].map s2c

/-- The path test of `is_valid_command`:
`command.starts_with("./") || command.starts_with('/') || command.contains('/')`. -/
def is_path_like (command : List Char) : Bool :=
  (s2c "./").isPrefixOf command || command.headD ' ' == '/'
    || command.contains '/'

/-- `ShellCommandDetector::is_valid_command`: explicit path, builtin,
inventory member, or last-resort runtime probe. -/
def is_valid_command (d : ShellCommandDetector) (which : List Char → Bool)
    (command : List Char) : Bool × ShellCommandDetector × List (List Char) :=
  if is_path_like command then (true, d, [])
  else if builtins.contains command then (true, d, [])
  else if d.available_commands.contains command then (true, d, [])
  else command_exists_runtime d which command

/-- `ShellCommandDetector::is_shell_command`, the classifier entry
point, with explicit state and subprocess log. -/
def is_shell_command (d : ShellCommandDetector) (which : List Char → Bool)
    (user_input : List Char) : Bool × ShellCommandDetector × List (List Char) :=
  if (trim user_input).isEmpty then (false, d, [])
  else if is_obvious_natural_language user_input then (false, d, [])
  else
    match split user_input with
    | none => (false, d, [])
    | some tokens =>
      match tokens with
      | [] => (false, d, [])
      | command :: args =>
        match is_valid_command d which command with
        | (false, d2, calls) => (false, d2, calls)
        | (true, d2, calls) =>
          (args_follow_shell_patterns_lenient user_input args, d2, calls)

/-- `ShellCommandDetector::get_command_suggestions`: inventory entries
with the given prefix, capped at 10.  `&self` in the source: no state
change. -/
def get_command_suggestions (d : ShellCommandDetector) (partial_ : List Char) :
    List (List Char) :=
  ((d.available_commands.filter (fun cmd => partial_.isPrefixOf cmd)).take 10)

/-- One directory entry as seen by `load_commands_from_directory`; the
file system is modelled as an explicit entry list (spec design note:
environment reads become explicit constructor inputs). -/
structure DirEntry where
  name : List Char
  is_file : Bool
  is_executable : Bool

/-- `ShellCommandDetector::load_commands_from_directory`: insert every
entry that is a regular file and executable. -/
def load_commands_from_directory (d : ShellCommandDetector)
    (entries : List DirEntry) : ShellCommandDetector :=
  entries.foldl
    (fun d e => if e.is_file && e.is_executable then insertCmd d e.name else d) d

/-- Match of the regex `alias\s+([^=]+)=` starting right after a literal
`alias` at the current position: one mandatory whitespace character,
then (greedy `\s+` with backtracking) the capture runs from the end of
the whitespace run (stepping one back when `=` follows it directly) up
to the first `=`; there must be at least one captured character. -/
def paHere (l : List Char) : Option (List Char) :=
  match dropPre (s2c "alias") l with
  | none => none
  | some [] => none
  | some (c :: cs) =>
    if c.isWhitespace then
      match cs.findIdx? (fun x => x == '=') with
      | none => none
      | some j =>
        if j == 0 then none
        else
          let m := (cs.takeWhile Char.isWhitespace).length
          let start := min m (j - 1)
          some (trim ((cs.drop start).take (j - start)))
    else none

/-- Leftmost search for the `parse_alias` regex. -/
def paSearch : List Char → Option (List Char)
  | [] => none
  | c :: cs =>
    match paHere (c :: cs) with
    | some cap => some cap
    | none => paSearch cs

/-- `ShellCommandDetector::parse_alias`: capture group 1 of
`alias\s+([^=]+)=`, trimmed. -/
def parse_alias (line : List Char) : Option (List Char) :=
  paSearch line

/-- `ShellCommandDetector::load_user_aliases`, over the lines the alias
subprocess printed (modelled as an explicit input). -/
def load_user_aliases (d : ShellCommandDetector) (lines : List (List Char)) :
    ShellCommandDetector :=
  lines.foldl
    (fun d line =>
      match parse_alias line with
      | some a => insertCmd d a
      | none => d) d

/-! Helper lemmas shared by the claim theorems. -/

theorem insertCmd_mono (d : ShellCommandDetector) (m n : List Char)
    (h : n ∈ d.available_commands) : n ∈ (insertCmd d m).available_commands := by
  unfold insertCmd
  split
  · exact h
  · exact List.mem_cons_of_mem _ h

theorem command_exists_runtime_mono (d : ShellCommandDetector)
    (which : List Char → Bool) (c n : List Char) (h : n ∈ d.available_commands) :
    n ∈ (command_exists_runtime d which c).2.1.available_commands := by
  unfold command_exists_runtime
  split
  · exact insertCmd_mono d c n h
  · exact h

theorem is_valid_command_mono (d : ShellCommandDetector)
    (which : List Char → Bool) (c n : List Char) (h : n ∈ d.available_commands) :
    n ∈ (is_valid_command d which c).2.1.available_commands := by
  unfold is_valid_command
  split
  · exact h
  · split
    · exact h
    · split
      · exact h
      · exact command_exists_runtime_mono d which c n h

theorem is_shell_command_mono (d : ShellCommandDetector)
    (which : List Char → Bool) (input n : List Char)
    (h : n ∈ d.available_commands) :
    n ∈ (is_shell_command d which input).2.1.available_commands := by
  unfold is_shell_command
  split
  · exact h
  · split
    · exact h
    · split
      · exact h
      · split
        · exact h
        · rename_i cmd args _
          have hv := is_valid_command_mono d which cmd n h
          split
          · rename_i d2 calls heq
            rw [heq] at hv
            exact hv
          · rename_i d2 calls heq
            rw [heq] at hv
            exact hv

theorem foldl_insert_mono {α : Type} (f : ShellCommandDetector → α → ShellCommandDetector)
    (hf : ∀ s a n, n ∈ s.available_commands → n ∈ (f s a).available_commands) :
    ∀ (l : List α) (s : ShellCommandDetector) (n : List Char),
      n ∈ s.available_commands → n ∈ (l.foldl f s).available_commands := by
  intro l
  induction l with
  | nil => intro s n h; exact h
  | cons a as ih => intro s n h; exact ih (f s a) n (hf s a n h)

theorem contains_true_iff (l : List (List Char)) (a : List Char) :
    l.contains a = true ↔ a ∈ l := by
  simp [List.elem_iff]

theorem is_valid_command_fst (d : ShellCommandDetector) (which : List Char → Bool)
    (c : List Char) :
    (is_valid_command d which c).1 =
      (is_path_like c || builtins.contains c
        || d.available_commands.contains c || which c) := by
  unfold is_valid_command command_exists_runtime
  cases hp : is_path_like c <;> cases hb : builtins.contains c <;>
    cases hc : d.available_commands.contains c <;> cases hw : which c <;>
      simp [hp, hb, hc, hw]

theorem is_valid_command_state (d : ShellCommandDetector) (which : List Char → Bool)
    (c : List Char) :
    (is_valid_command d which c).2.1 = d ∨
      (is_valid_command d which c).2.1 = insertCmd d c := by
  unfold is_valid_command command_exists_runtime
  split
  · exact Or.inl rfl
  · split
    · exact Or.inl rfl
    · split
      · exact Or.inl rfl
      · split
        · exact Or.inr rfl
        · exact Or.inl rfl

theorem is_shell_command_step (d : ShellCommandDetector) (which : List Char → Bool)
    (input cmd : List Char) (args : List (List Char))
    (h1 : (trim input).isEmpty = false)
    (h2 : is_obvious_natural_language input = false)
    (h3 : split input = some (cmd :: args)) :
    is_shell_command d which input =
      (match is_valid_command d which cmd with
        | (false, d2, calls) => (false, d2, calls)
        | (true, d2, calls) =>
          (args_follow_shell_patterns_lenient input args, d2, calls)) := by
  unfold is_shell_command
  simp [h1, h2, h3]

/-! The claim theorems. -/

/-- C1: Quote-aware veto suppression.  For any detector state and any
`which` oracle, `is_shell_command "grep 'what is the best way' file.txt"`
is `true` (the quoted span is removed before the natural-language scan,
so the quoted text does not veto the valid `grep` invocation), while
`is_shell_command "what is the best way to list files"` is `false`. -/
theorem C1_quote_aware_veto_suppression (d : ShellCommandDetector)
    (which : List Char → Bool) :
    (is_shell_command d which (s2c "grep 'what is the best way' file.txt")).1 = true ∧
    (is_shell_command d which (s2c "what is the best way to list files")).1 = false := by
  constructor
  · have h3 : split (s2c "grep 'what is the best way' file.txt") =
        some (s2c "grep" :: [s2c "what is the best way", s2c "file.txt"]) := by decide
    rw [is_shell_command_step d which _ _ _ (by decide) (by decide) h3]
    have hv : is_valid_command d which (s2c "grep") = (true, d, []) := by
      unfold is_valid_command
      simp [show is_path_like (s2c "grep") = false from by decide,
        show s2c "grep" ∈ builtins from by decide]
    rw [hv]
    exact (show args_follow_shell_patterns_lenient
      (s2c "grep 'what is the best way' file.txt")
      [s2c "what is the best way", s2c "file.txt"] = true from by decide)
  · have h2 : is_obvious_natural_language
        (s2c "what is the best way to list files") = true := by decide
    unfold is_shell_command
    simp [h2,
      show (trim (s2c "what is the best way to list files")).isEmpty = false from by decide]

/-- C5: an input that survives the empty and obvious-natural-language
checks but whose tokenization fails, or yields no tokens, is classified
`false`, with the state unchanged and no subprocess invoked; no error is
surfaced (the function is total). -/
theorem C5_tokenization_failure_false (d : ShellCommandDetector)
    (which : List Char → Bool) (input : List Char)
    (h1 : (trim input).isEmpty = false)
    (h2 : is_obvious_natural_language input = false)
    (h3 : split input = none ∨ split input = some []) :
    is_shell_command d which input = (false, d, []) := by
  unfold is_shell_command
  rcases h3 with h3 | h3 <;> simp [h1, h2, h3]

/-- C5 witness: the unbalanced quote input `abc'`. -/
theorem C5_tokenization_failure_false_witness :
    is_shell_command ⟨[]⟩ (fun _ => false) (s2c "abc'") = (false, ⟨[]⟩, []) :=
  C5_tokenization_failure_false ⟨[]⟩ (fun _ => false) (s2c "abc'")
    (by decide) (by decide) (Or.inl (by decide))

/-- C6: every input whose last character is `?`, and every input whose
trimmed form is empty, is classified `false`, for any detector state
and oracle. -/
theorem C6_question_mark_or_blank_false (d : ShellCommandDetector)
    (which : List Char → Bool) (input : List Char)
    (h : input.getLast? = some '?' ∨ (trim input).isEmpty = true) :
    (is_shell_command d which input).1 = false := by
  rcases h with h | h
  · have hc : ends_with_char (input.map Char.toLower) '?' = true := by
      unfold ends_with_char
      rw [List.getLast?_map, h]
      rfl
    have hn : is_obvious_natural_language input = true := by
      unfold is_obvious_natural_language
      simp [hc]
    unfold is_shell_command
    by_cases he : (trim input).isEmpty = true
    · simp [he]
    · simp [he, hn]
  · unfold is_shell_command
    simp [h]

/-- C6 witness: `ls -la?` ends in `?` and is rejected even though its
first token is the builtin `ls`. -/
theorem C6_question_mark_or_blank_false_witness :
    (is_shell_command ⟨[]⟩ (fun _ => false) (s2c "ls -la?")).1 = false :=
  C6_question_mark_or_blank_false ⟨[]⟩ (fun _ => false) (s2c "ls -la?")
    (Or.inl (by decide))

/-- C7: suggestions are sound: at most 10 entries, each an inventory
member starting byte-wise with the requested text; the call is a pure
function of the state (`&self`): it performs no mutation. -/
theorem C7_suggestions_sound (d : ShellCommandDetector) (p : List Char) :
    (get_command_suggestions d p).length ≤ 10 ∧
    ∀ x ∈ get_command_suggestions d p,
      x ∈ d.available_commands ∧ p.isPrefixOf x = true := by
  constructor
  · unfold get_command_suggestions
    rw [List.length_take]
    exact Nat.min_le_left _ _
  · intro x hx
    unfold get_command_suggestions at hx
    have hf := List.mem_of_mem_take hx
    rw [List.mem_filter] at hf
    exact hf

/-- C7 witness: a two-entry inventory with the query `g`. -/
theorem C7_suggestions_sound_witness :
    (get_command_suggestions ⟨[s2c "git", s2c "grep"]⟩ (s2c "g")).length ≤ 10 ∧
    (s2c "git" ∈ (⟨[s2c "git", s2c "grep"]⟩ : ShellCommandDetector).available_commands ∧
      (s2c "g").isPrefixOf (s2c "git") = true) :=
  ⟨(C7_suggestions_sound ⟨[s2c "git", s2c "grep"]⟩ (s2c "g")).1,
    (C7_suggestions_sound ⟨[s2c "git", s2c "grep"]⟩ (s2c "g")).2 (s2c "git") (by decide)⟩

/-- C9: suggestion completeness: whenever at most 10 inventory entries
carry the requested text as a prefix, every matching entry is returned. -/
theorem C9_suggestions_complete (d : ShellCommandDetector) (p : List Char)
    (h : (d.available_commands.filter (fun c => p.isPrefixOf c)).length ≤ 10) :
    ∀ x ∈ d.available_commands, p.isPrefixOf x = true →
      x ∈ get_command_suggestions d p := by
  intro x hx hp
  unfold get_command_suggestions
  rw [List.take_of_length_le h]
  exact List.mem_filter.mpr ⟨hx, hp⟩

/-- C9 witness: a singleton inventory and the query `gi`. -/
theorem C9_suggestions_complete_witness :
    s2c "git" ∈ get_command_suggestions ⟨[s2c "git"]⟩ (s2c "gi") :=
  C9_suggestions_complete ⟨[s2c "git"]⟩ (s2c "gi") (by decide)
    (s2c "git") (by decide) (by decide)

/-- C3: monotonic caching: when the runtime probe succeeds for `n` the
resulting inventory contains `n`, and the validation of any name the
inventory contains answers `true` from the inventory, with no state
change and no subprocess invocation (empty call log). -/
theorem C3_monotonic_caching (d : ShellCommandDetector)
    (which : List Char → Bool) (n : List Char) (h : which n = true) :
    (command_exists_runtime d which n).2.1.available_commands.contains n = true ∧
    ∀ (d2 : ShellCommandDetector) (which2 : List Char → Bool),
      d2.available_commands.contains n = true →
      is_valid_command d2 which2 n = (true, d2, []) := by
  constructor
  · unfold command_exists_runtime
    simp only [h, if_true]
    unfold insertCmd
    split
    · assumption
    · simp [List.elem_iff]
  · intro d2 which2 hc
    unfold is_valid_command
    split
    · rfl
    · split
      · rfl
      · rfl

/-- C3 witness: a probe that succeeds for `rg`, then a validation of
`rg` from a state whose inventory holds it, under an oracle that would
fail (showing the subprocess is not consulted). -/
theorem C3_monotonic_caching_witness :
    (command_exists_runtime ⟨[]⟩ (fun _ => true) (s2c "rg")).2.1.available_commands.contains
      (s2c "rg") = true ∧
    is_valid_command ⟨[s2c "rg"]⟩ (fun _ => false) (s2c "rg") =
      (true, ⟨[s2c "rg"]⟩, []) :=
  ⟨(C3_monotonic_caching ⟨[]⟩ (fun _ => true) (s2c "rg") rfl).1,
    (C3_monotonic_caching ⟨[]⟩ (fun _ => true) (s2c "rg") rfl).2
      ⟨[s2c "rg"]⟩ (fun _ => false) (by decide)⟩

/-- C2: command validation: with the early checks passed and the input
tokenized as `cmd :: args`, if `cmd` is not path-like, not a builtin,
not in the inventory, and the runtime probe fails, the verdict is
`false`; if any of the four validation layers succeeds, classification
proceeds to the argument scan and returns its verdict. -/
theorem C2_command_validation (d : ShellCommandDetector) (which : List Char → Bool)
    (input cmd : List Char) (args : List (List Char))
    (h1 : (trim input).isEmpty = false)
    (h2 : is_obvious_natural_language input = false)
    (h3 : split input = some (cmd :: args)) :
    ((is_path_like cmd = false ∧ builtins.contains cmd = false ∧
        d.available_commands.contains cmd = false ∧ which cmd = false) →
      (is_shell_command d which input).1 = false) ∧
    ((is_path_like cmd = true ∨ builtins.contains cmd = true ∨
        d.available_commands.contains cmd = true ∨ which cmd = true) →
      (is_shell_command d which input).1 =
        args_follow_shell_patterns_lenient input args) := by
  rw [is_shell_command_step d which input cmd args h1 h2 h3]
  constructor
  · rintro ⟨ha, hb, hcc, hw⟩
    have hv : is_valid_command d which cmd = (false, d, [cmd]) := by
      unfold is_valid_command command_exists_runtime
      rw [ha, hb, hcc, hw]
      simp
    rw [hv]
  · intro hor
    have hf : (is_valid_command d which cmd).1 = true := by
      rw [is_valid_command_fst]
      rcases hor with h | h | h | h
      · simp [h]
      · simp [(contains_true_iff builtins cmd).mp h]
      · simp [(contains_true_iff d.available_commands cmd).mp h]
      · simp [h]
    rcases hv : is_valid_command d which cmd with ⟨b, d2, calls⟩
    rw [hv] at hf
    simp only at hf
    subst hf
    rfl

/-- C2 witness: an unknown word with a failing probe is rejected; a
`git` invocation proceeds to the argument scan. -/
theorem C2_command_validation_witness :
    (is_shell_command ⟨[]⟩ (fun _ => false) (s2c "zzqq hello")).1 = false ∧
    (is_shell_command ⟨[]⟩ (fun _ => false) (s2c "git status")).1 =
      args_follow_shell_patterns_lenient (s2c "git status") [s2c "status"] :=
  ⟨(C2_command_validation ⟨[]⟩ (fun _ => false) (s2c "zzqq hello")
      (s2c "zzqq") [s2c "hello"] (by decide) (by decide) (by decide)).1
      ⟨by decide, by decide, by decide, rfl⟩,
    (C2_command_validation ⟨[]⟩ (fun _ => false) (s2c "git status")
      (s2c "git") [s2c "status"] (by decide) (by decide) (by decide)).2
      (Or.inr (Or.inl (by decide)))⟩

/-- C4: the stop-word density stage: given that no natural-language
regex matched (and the scanned text is nonempty after trimming), with
more than 2 whitespace-separated words the verdict is `false` exactly
when the stop-word fraction exceeds 0.4 (stated exactly over the
rationals: `5 * count > 2 * len`), and with at most 2 words the density
veto never fires. -/
theorem C4_stop_word_density (text : List Char)
    (hne : (trim text).isEmpty = false)
    (hnm : natural_indicators.any
      (fun p => reMatches p (text.map Char.toLower)) = false) :
    (2 < (splitWs (text.map Char.toLower)).length →
      (check_natural_language_patterns text = false ↔
        5 * commonCount (splitWs (text.map Char.toLower)) >
          2 * (splitWs (text.map Char.toLower)).length)) ∧
    ((splitWs (text.map Char.toLower)).length ≤ 2 →
      check_natural_language_patterns text = true) := by
  have e1 : check_natural_language_patterns text =
      (if (splitWs (text.map Char.toLower)).length > 2 then
        if 5 * commonCount (splitWs (text.map Char.toLower)) >
            2 * (splitWs (text.map Char.toLower)).length then false
        else true
      else true) := by
    unfold check_natural_language_patterns
    rw [hne, hnm]
    simp
  rw [e1]
  constructor
  · intro hgt
    rw [if_pos hgt]
    by_cases hd : 5 * commonCount (splitWs (text.map Char.toLower)) >
        2 * (splitWs (text.map Char.toLower)).length
    · simp [hd]
    · simp [hd]
  · intro hle
    rw [if_neg (by omega)]

/-- C4 witness: `the is to go` (4 words, 3 stop words) is vetoed;
`aa bb` (2 words) is not. -/
theorem C4_stop_word_density_witness :
    check_natural_language_patterns (s2c "the is to go") = false ∧
    check_natural_language_patterns (s2c "aa bb") = true :=
  ⟨((C4_stop_word_density (s2c "the is to go") (by decide) (by decide)).1
      (by decide)).mpr (by decide),
    (C4_stop_word_density (s2c "aa bb") (by decide) (by decide)).2 (by decide)⟩

/-- C8: inventory monotonicity: directory loading, alias loading, the
runtime probe, command validation and classification only ever insert
names; any name in the inventory before any of these operations is
still there afterwards (suggestion lookup takes `&self` and cannot
mutate at all). -/
theorem C8_inventory_monotone (d : ShellCommandDetector) (n : List Char)
    (h : n ∈ d.available_commands) :
    (∀ entries, n ∈ (load_commands_from_directory d entries).available_commands) ∧
    (∀ lines, n ∈ (load_user_aliases d lines).available_commands) ∧
    (∀ which c, n ∈ (command_exists_runtime d which c).2.1.available_commands) ∧
    (∀ which c, n ∈ (is_valid_command d which c).2.1.available_commands) ∧
    (∀ which input, n ∈ (is_shell_command d which input).2.1.available_commands) := by
  refine ⟨?_, ?_, ?_, ?_, ?_⟩
  · intro entries
    refine foldl_insert_mono _ ?_ entries d n h
    intro s a m hm
    dsimp only
    split
    · exact insertCmd_mono s a.name m hm
    · exact hm
  · intro lines
    refine foldl_insert_mono _ ?_ lines d n h
    intro s a m hm
    dsimp only
    cases hpa : parse_alias a with
    | none => simp only [hpa]; exact hm
    | some al => simp only [hpa]; exact insertCmd_mono s al m hm
  · intro which c
    exact command_exists_runtime_mono d which c n h
  · intro which c
    exact is_valid_command_mono d which c n h
  · intro which input
    exact is_shell_command_mono d which input n h

/-- C8 witness: `git` stays in the inventory across a directory load and
a classification that inserts a new name. -/
theorem C8_inventory_monotone_witness :
    s2c "git" ∈ (load_commands_from_directory ⟨[s2c "git"]⟩
      [⟨s2c "ls", true, true⟩]).available_commands ∧
    s2c "git" ∈ (is_shell_command ⟨[s2c "git"]⟩ (fun _ => true)
      (s2c "rg pat")).2.1.available_commands :=
  ⟨(C8_inventory_monotone ⟨[s2c "git"]⟩ (s2c "git") (by decide)).1
      [⟨s2c "ls", true, true⟩],
    (C8_inventory_monotone ⟨[s2c "git"]⟩ (s2c "git") (by decide)).2.2.2.2
      (fun _ => true) (s2c "rg pat")⟩

/-- C10: frame property of one classification call: the state is either
unchanged or extended exactly by inserting the first parsed token, and
any call that stops at the empty check, the obvious-natural-language
short-circuit, or a tokenization failure leaves the state exactly
unchanged. -/
theorem C10_classification_frame (d : ShellCommandDetector)
    (which : List Char → Bool) (input : List Char) :
    ((is_shell_command d which input).2.1 = d ∨
      ∃ cmd args, split input = some (cmd :: args) ∧
        (is_shell_command d which input).2.1 = insertCmd d cmd) ∧
    (((trim input).isEmpty = true ∨ is_obvious_natural_language input = true ∨
        split input = none) →
      (is_shell_command d which input).2.1 = d) := by
  constructor
  · by_cases h1 : (trim input).isEmpty = true
    · left
      unfold is_shell_command
      simp [h1]
    · by_cases h2 : is_obvious_natural_language input = true
      · left
        unfold is_shell_command
        simp [h1, h2]
      · rw [Bool.not_eq_true] at h1 h2
        rcases hs : split input with _ | tokens
        · left
          unfold is_shell_command
          simp [h1, h2, hs]
        · cases tokens with
          | nil =>
            left
            unfold is_shell_command
            simp [h1, h2, hs]
          | cons cmd args =>
            have hstep := is_shell_command_step d which input cmd args h1 h2 hs
            have hst := is_valid_command_state d which cmd
            rcases hb : is_valid_command d which cmd with ⟨b, d2, calls⟩
            rw [hb] at hst
            rw [hstep, hb]
            cases b
            · rcases hst with hd2 | hd2
              · exact Or.inl hd2
              · exact Or.inr ⟨cmd, args, rfl, hd2⟩
            · rcases hst with hd2 | hd2
              · exact Or.inl hd2
              · exact Or.inr ⟨cmd, args, rfl, hd2⟩
  · intro h
    rcases h with h | h | h <;> unfold is_shell_command <;> simp [h]

/-- C10 witness: the natural-language short-circuit leaves the state
unchanged even under an always-succeeding probe oracle. -/
theorem C10_classification_frame_witness :
    (is_shell_command ⟨[]⟩ (fun _ => true) (s2c "what now")).2.1 =
      (⟨[]⟩ : ShellCommandDetector) :=
  (C10_classification_frame ⟨[]⟩ (fun _ => true) (s2c "what now")).2
    (Or.inr (Or.inl (by decide)))

end Infrarust
